import Mathlib

/-!
Verification of the adaptive study engine (flashcard.py, learn_simulator.py,
question_handlers.py).  Machine integers and floats of the source are modelled
as `ℕ`, `ℤ` and `ℚ`; the interactive prompt layer is modelled by explicit
scripts of learner responses and keystrokes.
-/

/-- Card kind tag, from `Flashcard.card_type` (flashcard.py line 36):
`mcq` when a question text is present, otherwise `vocabulary`. -/
inductive CardType where
  | vocabulary
  | mcq
deriving DecidableEq, Inhabited

/-- The scheduling state and answer key of one card, from `Flashcard.__init__`
(flashcard.py lines 5-36).  Content strings (term, definition, question,
option texts) play no role in the claims and are omitted; `correct_answers`
is the parsed list of correct option letters. -/
structure Flashcard where
  ease : ℚ
  interval : ℤ
  repetitions : ℕ
  card_type : CardType
  correct_answers : List Char
deriving DecidableEq, Inhabited

/-- Time-based ease modifier, from `Flashcard._calculate_time_modifier`
(flashcard.py lines 71-91). -/
def calculate_time_modifier (response_time : ℚ) : ℚ :=
  if response_time ≤ 3 then 12/10
  else if response_time ≤ 6 then 11/10
  else if response_time ≤ 12 then 1
  else if response_time ≤ 20 then 9/10
  else 8/10

/-- SM-2 style update, from `Flashcard.review` (flashcard.py lines 38-69).
Python's `math.floor(self.repetitions / 2)` on a non-negative int is `ℕ`
division by 2; `int(self.interval * self.ease)` truncates toward zero, which
coincides with `⌊·⌋` for the non-negative values arising here (interval ≥ 1,
ease > 0).  The `stage` argument of the source is unused by the update and
omitted. -/
def review (c : Flashcard) (quality : ℚ) (response_time : Option ℚ) : Flashcard :=
  let c1 : Flashcard :=
    if quality < 3 then
      { c with repetitions := c.repetitions / 2, interval := 1 }
    else
      let reps := c.repetitions + 1
      { c with repetitions := reps,
               interval := if reps = 1 then 1 else if reps = 2 then 6
                           else ⌊(c.interval : ℚ) * c.ease⌋ }
  let time_modifier : ℚ :=
    match response_time with
    | none => 1
    | some t => calculate_time_modifier t
  let base_ease_change : ℚ := 1/10 - (5 - quality) * (8/100 + (5 - quality) * (2/100))
  let ease_change : ℚ := 5 * base_ease_change * time_modifier
  { c1 with ease := max (13/10) (c.ease + ease_change) }

/-- Iterated reviews: fold `review` over a list of (quality, response time)
pairs, in order. -/
def reviewSeq (c : Flashcard) (rs : List (ℚ × Option ℚ)) : Flashcard :=
  rs.foldl (fun a p => review a p.1 p.2) c

/-- Stage classifier, from the nested conditionals of
`LearnSimulator._calculate_set_statistics` (learn_simulator.py lines 120-129)
and `LearnSimulator._study_card_set_with_tracking` (lines 449-485). -/
def classify (c : Flashcard) : ℕ :=
  if c.repetitions = 0 ∨ c.ease < 2 then 1
  else if c.ease < 3 then 2
  else if c.ease < 4 then 3
  else if c.ease < 5 then 4
  else 5

/-- Boolean stage-1 test, from the generator expression at
learn_simulator.py line 296: `card.repetitions == 0 or card.ease < 2.0`. -/
def isStage1 (c : Flashcard) : Bool :=
  c.repetitions == 0 || decide (c.ease < 2)

/-- From `Flashcard.get_correct_answers_set` (flashcard.py lines 194-196). -/
def get_correct_answers_set (c : Flashcard) : Finset Char :=
  if c.card_type = CardType.mcq then c.correct_answers.toFinset else ∅

/-- The `feedback_info` dict built by `Flashcard.calculate_partial_score`
(flashcard.py lines 236-244). -/
structure FeedbackInfo where
  total_correct : ℕ
  correctly_selected : ℕ
  incorrectly_selected : ℕ
  correct_answers : List Char
  selected_answers : List Char
  missed_answers : List Char
  wrong_answers : List Char
deriving DecidableEq

/-- From `Flashcard.calculate_partial_score` (flashcard.py lines 198-246).
The empty dict `{}` of the two early returns is modelled as `none`, the
populated dict as `some ⟨…⟩` with each letter set sorted as in the source. -/
def calculate_partial_score (c : Flashcard) (selected_answers : List Char) :
    ℚ × Bool × Option FeedbackInfo :=
  if c.card_type ≠ CardType.mcq then (1, true, none)
  else
    let correct_set := get_correct_answers_set c
    let selected_set := selected_answers.toFinset
    let total_correct := correct_set.card
    let correctly_selected := (correct_set ∩ selected_set).card
    let incorrectly_selected := (selected_set \ correct_set).card
    if total_correct = 0 then (0, false, none)
    else
      let base_score : ℚ := (correctly_selected : ℚ) / (total_correct : ℚ)
      let penalty : ℚ := (incorrectly_selected : ℚ) * (1/4)
      let final_score := max 0 (base_score - penalty)
      let is_perfect := correctly_selected = total_correct ∧ incorrectly_selected = 0
      (final_score, decide is_perfect,
       some ⟨total_correct, correctly_selected, incorrectly_selected,
             correct_set.sort (· ≤ ·), selected_set.sort (· ≤ ·),
             (correct_set \ selected_set).sort (· ≤ ·),
             (selected_set \ correct_set).sort (· ≤ ·)⟩)

/-!  Hint logic of the single-answer MCQ handlers (question_handlers.py). -/

/-- The `wrong_numbers` comprehension of `eliminate_wrong_options`
(question_handlers.py lines 61-65): display numbers `i+1` whose letter is not
a correct answer and which are still in the remaining choice set. -/
def wrongNumbers (shuffled_letters : List Char) (correct_answers_set : Finset Char)
    (available_options : List ℕ) : List ℕ :=
  ((List.range shuffled_letters.length).filter
    (fun i => decide (shuffled_letters.getD i ' ' ∉ correct_answers_set) &&
              decide ((i + 1) ∈ available_options))).map (· + 1)

/-- From `eliminate_wrong_options` (question_handlers.py lines 59-68); the
same formula appears inline in `LearnSimulator._mcq_practice_mode`
(learn_simulator.py lines 1140-1145).  `random.sample` is modelled by the
oracle `sample`, constrained by `ValidSample` in the theorems. -/
def eliminate_wrong_options (sample : List ℕ → ℕ → List ℕ)
    (shuffled_letters : List Char) (correct_answers_set : Finset Char)
    (available_options : List ℕ) : List ℕ :=
  let wrong_numbers := wrongNumbers shuffled_letters correct_answers_set available_options
  let count := min (max 1 (wrong_numbers.length / 2)) wrong_numbers.length
  let numbers_to_remove := sample wrong_numbers count
  available_options.filter (fun num => decide (num ∉ numbers_to_remove))

/-- What Python's `random.sample(xs, n)` guarantees when `xs` has no
duplicates: `n` distinct elements drawn from `xs`. -/
def ValidSample (sample : List ℕ → ℕ → List ℕ) : Prop :=
  ∀ xs n, xs.Nodup → n ≤ xs.length →
    (sample xs n).length = n ∧ (sample xs n).Nodup ∧ ∀ x ∈ sample xs n, x ∈ xs

/-- One possible draw of `random.sample`: the first `n` elements. -/
def sampleTake : List ℕ → ℕ → List ℕ := fun xs n => xs.take n

/-- Keystrokes fed to the single-answer input loop. -/
inductive Key where
  | escKey
  | digitKey (n : ℕ)
  | hintKey
  | otherKey
deriving DecidableEq

/-- Input loop of `_single_answer_loop` (question_handlers.py lines 119-181),
restricted to the state the hint logic touches.  Processes keystrokes until a
valid answer or ESC terminates the loop (or the script runs out), and returns
the number of times `eliminate_wrong_options` was applied.  Mirrors the
branches: a digit `1..4` that is `≤ max_option` and still available answers
the question; `h` with hints allowed and unused eliminates options and sets
`used_hint`; any other input re-prompts. -/
def single_answer_loop (sample : List ℕ → ℕ → List ℕ) (shuffled_letters : List Char)
    (correct_set : Finset Char) (allow_hints : Bool) (max_option : ℕ) :
    List Key → Bool → List ℕ → ℕ → ℕ
  | [], _, _, hintUses => hintUses
  | k :: ks, used_hint, available_options, hintUses =>
    match k with
    | Key.escKey => hintUses
    | Key.digitKey n =>
      if 1 ≤ n ∧ n ≤ 4 ∧ n ≤ max_option then
        if n ∈ available_options then hintUses
        else single_answer_loop sample shuffled_letters correct_set allow_hints max_option
          ks used_hint available_options hintUses
      else single_answer_loop sample shuffled_letters correct_set allow_hints max_option
        ks used_hint available_options hintUses
    | Key.hintKey =>
      if allow_hints = true ∧ used_hint = false then
        single_answer_loop sample shuffled_letters correct_set allow_hints max_option
          ks true
          (eliminate_wrong_options sample shuffled_letters correct_set available_options)
          (hintUses + 1)
      else single_answer_loop sample shuffled_letters correct_set allow_hints max_option
        ks used_hint available_options hintUses
    | Key.otherKey =>
      single_answer_loop sample shuffled_letters correct_set allow_hints max_option
        ks used_hint available_options hintUses

/-!  Session orchestration (learn_simulator.py `study_session` and
`_study_card_set_with_tracking`). -/

/-- Raw outcome a question handler returns for one card: `True`, `False`,
`"hint_correct"`, or `("partial", score)` (see `_study_card_set_with_tracking`,
learn_simulator.py lines 499-527).  `credit s` models `("partial", s)`. -/
inductive Outcome where
  | correct
  | incorrect
  | hintCorrect
  | credit (score : ℚ)
deriving DecidableEq

/-- Quality fed to `Flashcard.review`, from learn_simulator.py lines 501-527:
hint-correct → 3, partial score `p` → `1 + 4p`, correct → 5, incorrect → 1. -/
def qualityOf : Outcome → ℚ
  | Outcome.hintCorrect => 3
  | Outcome.credit s => 1 + s * 4
  | Outcome.correct => 5
  | Outcome.incorrect => 1

/-- Whether the outcome adds the card to `incorrect_cards`
(learn_simulator.py lines 507-527): a partial score below 0.5 or a plain
incorrect answer. -/
def isIncorrectOutcome : Outcome → Bool
  | Outcome.incorrect => true
  | Outcome.credit s => decide (s < 1/2)
  | _ => false

/-- Result of studying one card set, from `_study_card_set_with_tracking`
(learn_simulator.py lines 434-554): the deck after the in-place card
mutations, the cards answered incorrectly (as deck indices), the number of
`save_deck` calls made by the prompt handlers, and whether ESC ended the set. -/
structure SetResult where
  deck : List Flashcard
  incorrect : List ℕ
  saves : ℕ
  cancelled : Bool
deriving DecidableEq

/-- The per-card loop of `_study_card_set_with_tracking` (learn_simulator.py
lines 443-548).  Cards are deck indices (Python object identity = deck slot);
each response is `some (outcome, response_time)` or `none` for ESC.  On ESC
the prompt handler saves the deck once and the loop returns with the
in-flight card untouched; otherwise `card.review` is applied and the card is
tracked as correct or incorrect. -/
def study_card_set : List Flashcard → List ℕ → List (Option (Outcome × Option ℚ)) → SetResult
  | deck, [], _ => ⟨deck, [], 0, false⟩
  | deck, _ :: _, [] => ⟨deck, [], 0, false⟩
  | deck, _ :: _, none :: _ => ⟨deck, [], 1, true⟩
  | deck, i :: is, some (o, rt) :: rs =>
    let deck1 := deck.set i (review (deck.getD i default) (qualityOf o) rt)
    let r := study_card_set deck1 is rs
    ⟨r.deck, (if isIncorrectOutcome o then [i] else []) ++ r.incorrect, r.saves, r.cancelled⟩

/-- Apply `review` at each listed deck index with the paired outcome, in
order; the reference semantics for the cards answered before an interrupt. -/
def applyReviews : List Flashcard → List ℕ → List (Outcome × Option ℚ) → List Flashcard
  | deck, [], _ => deck
  | deck, _ :: _, [] => deck
  | deck, i :: is, (o, rt) :: rs =>
    applyReviews (deck.set i (review (deck.getD i default) (qualityOf o) rt)) is rs

/-- Order-preserving dedup-and-filter of `study_session`
(learn_simulator.py lines 340-343): keep incorrectly answered cards that are
in `new_cards`, first occurrence only. -/
def uniqueIncorrect (incorrect new_idxs : List ℕ) : List ℕ :=
  incorrect.foldl (fun acc c => if c ∉ acc ∧ c ∈ new_idxs then acc ++ [c] else acc) []

/-- Stable insertion into a list of deck indices sorted by the given key. -/
def insertIdx (key : ℕ → ℕ) (i : ℕ) : List ℕ → List ℕ
  | [] => [i]
  | j :: js => if key j ≤ key i then j :: insertIdx key i js else i :: j :: js

/-- Deck indices sorted ascending by `repetitions` (stable, as Python's
`sorted`), from `study_session` line 286. -/
def sortedIdxs (deck : List Flashcard) : List ℕ :=
  (List.range deck.length).foldl
    (fun acc i => insertIdx (fun j => (deck.getD j default).repetitions) i acc) []

/-- How a phase loop ended: normally, by ESC cancellation, or with the
response script exhausted while the loop would have continued (not a real
terminated execution of the source). -/
inductive LoopEnd where
  | completed
  | cancelled
  | outOfScript
deriving DecidableEq

/-- Deck, handler-save count and end kind of one phase loop. -/
structure PhaseResult where
  deck : List Flashcard
  saves : ℕ
  ending : LoopEnd
deriving DecidableEq

/-- Batch construction of the Phase 1 loop (learn_simulator.py lines
306-321): take up to 7 cards from the carry-forward queue, top up to 7 from
the sorted-deck cursor; returns (batch, advanced cursor, remaining queue). -/
def phase1Batch (sorted : List ℕ) (start : ℕ) (carry : List ℕ) : List ℕ × ℕ × List ℕ :=
  let newIdxs0 := carry.take 7
  let carry1 := carry.drop 7
  let fill := if newIdxs0.length < 7 ∧ start < sorted.length then
      (sorted.drop start).take (7 - newIdxs0.length) else []
  (newIdxs0 ++ fill, start + fill.length, carry1)

/-- Phase 1 loop of `study_session` (learn_simulator.py lines 304-357),
continued: study the batch twice in a row, append the deduplicated incorrect
cards to the carry-forward queue, stop when the cursor is exhausted and the
queue is empty, or immediately on ESC. -/
def phase1Loop (sorted : List ℕ) :
    List (List (Option (Outcome × Option ℚ))) → List Flashcard → ℕ → List ℕ → PhaseResult
  | [], deck, start, carry =>
    if start < sorted.length ∨ carry ≠ [] then ⟨deck, 0, LoopEnd.outOfScript⟩
    else ⟨deck, 0, LoopEnd.completed⟩
  | responses :: rest, deck, start, carry =>
    if start < sorted.length ∨ carry ≠ [] then
      let b := phase1Batch sorted start carry
      if b.1 = [] then ⟨deck, 0, LoopEnd.completed⟩
      else
        let res := study_card_set deck (b.1 ++ b.1) responses
        if res.cancelled then ⟨res.deck, res.saves, LoopEnd.cancelled⟩
        else
          let carry2 := b.2.2 ++ uniqueIncorrect res.incorrect b.1
          if sorted.length ≤ b.2.1 ∧ carry2 = [] then ⟨res.deck, res.saves, LoopEnd.completed⟩
          else
            let r := phase1Loop sorted rest res.deck b.2.1 carry2
            ⟨r.deck, res.saves + r.saves, r.ending⟩
    else ⟨deck, 0, LoopEnd.completed⟩

/-- One iteration of the Phase 2 loop as seen by the learner: the batch the
RNG-driven selection produced (hardest-8 plus shuffled candidates,
learn_simulator.py lines 366-397, supplied here as an oracle), the responses,
and the answer to the continue prompt (line 425). -/
structure P2Iter where
  batch : List ℕ
  responses : List (Option (Outcome × Option ℚ))
  continueChoice : Bool

/-- Phase 2 loop of `study_session` (learn_simulator.py lines 365-428): study
a batch; ESC returns immediately (skipping the save at line 430); an empty
batch or a declined continue prompt breaks out of the loop normally. -/
def phase2Loop : List P2Iter → List Flashcard → PhaseResult
  | [], deck => ⟨deck, 0, LoopEnd.outOfScript⟩
  | it :: rest, deck =>
    if it.batch = [] then ⟨deck, 0, LoopEnd.completed⟩
    else
      let res := study_card_set deck it.batch it.responses
      if res.cancelled then ⟨res.deck, res.saves, LoopEnd.cancelled⟩
      else if it.continueChoice = false then ⟨res.deck, res.saves, LoopEnd.completed⟩
      else
        let r := phase2Loop rest res.deck
        ⟨r.deck, res.saves + r.saves, r.ending⟩

/-- Which phase banner was printed (lines 298 / 360). -/
inductive Phase where
  | phase1
  | phase2
deriving DecidableEq

/-- Observable outcome of a whole `study_session` call: final deck, total
number of `save_deck` invocations, whether `_display_session_summary` ran
(line 431), which phases were entered, and how the run ended. -/
structure SessionOutcome where
  deck : List Flashcard
  saves : ℕ
  summaryEmitted : Bool
  phases : List Phase
  ending : LoopEnd

/-- Control skeleton of `LearnSimulator.study_session` (learn_simulator.py
lines 284-432).  An empty deck returns at once (line 288-290).  If any card
is in stage 1 (line 296) the Phase 1 branch runs and the method ends when
that loop does — the Phase 2 loop, and the `save_deck` and
`_display_session_summary` calls at lines 430-432, all sit in the `else`
branch.  In the `else` branch, the save and summary run only when the Phase 2
loop exits by `break` (ESC paths `return` first). -/
def study_session (deck : List Flashcard)
    (p1script : List (List (Option (Outcome × Option ℚ)))) (p2script : List P2Iter) :
    SessionOutcome :=
  if deck.isEmpty then ⟨deck, 0, false, [], LoopEnd.completed⟩
  else if deck.any isStage1 then
    let r := phase1Loop (sortedIdxs deck) p1script deck 0 []
    ⟨r.deck, r.saves, false, [Phase.phase1], r.ending⟩
  else
    let r := phase2Loop p2script deck
    if r.ending = LoopEnd.completed then
      ⟨r.deck, r.saves + 1, true, [Phase.phase2], r.ending⟩
    else
      ⟨r.deck, r.saves, false, [Phase.phase2], r.ending⟩

/-- A stage-1 vocabulary card with the default scheduling state, used as a
concrete deck entry in witnesses and counterexamples. -/
def card0 : Flashcard := ⟨5/2, 1, 0, CardType.vocabulary, []⟩

/-- The multi-answer MCQ card of the worked scoring example: correct answers
`{a, c}`. -/
def cardAC : Flashcard := ⟨5/2, 1, 0, CardType.mcq, ['a', 'c']⟩

/-!  Theorems. -/

/-- Claim C4: for every card, every quality, and every response time
(including none), after `Flashcard.review` the card's ease is at least 1.3. -/
theorem c4_ease_lower_bound (c : Flashcard) (quality : ℚ) (response_time : Option ℚ) :
    13/10 ≤ (review c quality response_time).ease := by
  simp only [review]
  exact le_max_left _ _

/-- Claim C5: for every card and every quality below 3, `Flashcard.review`
halves repetitions (flooring, not resetting to 0) and sets the interval
to 1. -/
theorem c5_failure_update (c : Flashcard) (quality : ℚ) (response_time : Option ℚ)
    (h : quality < 3) :
    (review c quality response_time).repetitions = c.repetitions / 2 ∧
    (review c quality response_time).interval = 1 := by
  simp [review, h]

/-- Witness for C5 at a concrete card with 5 repetitions and quality 1. -/
theorem c5_witness :
    (1 : ℚ) < 3 ∧
    ((review ⟨5/2, 1, 5, CardType.vocabulary, []⟩ 1 none).repetitions = 5 / 2 ∧
     (review ⟨5/2, 1, 5, CardType.vocabulary, []⟩ 1 none).interval = 1) :=
  ⟨by norm_num, c5_failure_update ⟨5/2, 1, 5, CardType.vocabulary, []⟩ 1 none (by norm_num)⟩

/-- Claim C6: for every card and every quality at least 3, `Flashcard.review`
increments repetitions, sets the interval to 1 at repetition 1, to 6 at
repetition 2, and otherwise to `⌊interval × ease⌋`; repetitions strictly
increase, and under repeated quality ≥ 3 reviews they grow by the number of
reviews. -/
theorem c6_success_update (c : Flashcard) (quality : ℚ) (response_time : Option ℚ)
    (h : 3 ≤ quality) :
    (review c quality response_time).repetitions = c.repetitions + 1 ∧
    (review c quality response_time).interval =
      (if c.repetitions + 1 = 1 then 1 else if c.repetitions + 1 = 2 then 6
       else ⌊(c.interval : ℚ) * c.ease⌋) ∧
    c.repetitions < (review c quality response_time).repetitions ∧
    ∀ rs : List (ℚ × Option ℚ), (∀ p ∈ rs, 3 ≤ p.1) →
      (reviewSeq c rs).repetitions = c.repetitions + rs.length := by
  have hnot : ¬ quality < 3 := not_lt.mpr h
  refine ⟨by simp [review, hnot], by simp [review, hnot], by simp [review, hnot], ?_⟩
  intro rs
  induction rs generalizing c with
  | nil => intro _; rfl
  | cons p ps ih =>
    intro hall
    have hp : ¬ p.1 < 3 := not_lt.mpr (hall p (by simp))
    have h1 : (review c p.1 p.2).repetitions = c.repetitions + 1 := by simp [review, hp]
    have h2 := ih (review c p.1 p.2) (fun q hq => hall q (by simp [hq]))
    simp only [reviewSeq, List.foldl_cons] at h2 ⊢
    rw [h2, h1, List.length_cons]
    omega

/-- Witness for C6 at a concrete card with 0 repetitions and quality 5. -/
theorem c6_witness :
    (3 : ℚ) ≤ 5 ∧
    ((review card0 5 none).repetitions = card0.repetitions + 1 ∧
     (review card0 5 none).interval =
       (if card0.repetitions + 1 = 1 then 1 else if card0.repetitions + 1 = 2 then 6
        else ⌊(card0.interval : ℚ) * card0.ease⌋) ∧
     card0.repetitions < (review card0 5 none).repetitions) :=
  ⟨by norm_num,
   ⟨(c6_success_update card0 5 none (by norm_num)).1,
    (c6_success_update card0 5 none (by norm_num)).2.1,
    (c6_success_update card0 5 none (by norm_num)).2.2.1⟩⟩

/-- Claim C8: the stage classifier returns 1 iff repetitions = 0 or
ease < 2.0 (so ease 1.9 with 3 repetitions is stage 1), and otherwise the
stage is 2, 3, 4 or 5 as ease lies in [2,3), [3,4), [4,5) or [5,∞). -/
theorem c8_stage_classifier (c : Flashcard) :
    (classify c = 1 ↔ (c.repetitions = 0 ∨ c.ease < 2)) ∧
    (classify c = 2 ↔ (0 < c.repetitions ∧ 2 ≤ c.ease ∧ c.ease < 3)) ∧
    (classify c = 3 ↔ (0 < c.repetitions ∧ 3 ≤ c.ease ∧ c.ease < 4)) ∧
    (classify c = 4 ↔ (0 < c.repetitions ∧ 4 ≤ c.ease ∧ c.ease < 5)) ∧
    (classify c = 5 ↔ (0 < c.repetitions ∧ 5 ≤ c.ease)) ∧
    classify ⟨19/10, 1, 3, CardType.vocabulary, []⟩ = 1 := by
  have h19 : classify ⟨19/10, 1, 3, CardType.vocabulary, []⟩ = 1 := by norm_num [classify]
  by_cases h1 : c.repetitions = 0 ∨ c.ease < 2
  · have hc : classify c = 1 := by simp [classify, h1]
    refine ⟨iff_of_true hc h1, ?_, ?_, ?_, ?_, h19⟩ <;> rw [hc]
    · exact iff_of_false (by norm_num) (by rintro ⟨hr, he, -⟩; rcases h1 with h | h
                                           · omega
                                           · linarith)
    · exact iff_of_false (by norm_num) (by rintro ⟨hr, he, -⟩; rcases h1 with h | h
                                           · omega
                                           · linarith)
    · exact iff_of_false (by norm_num) (by rintro ⟨hr, he, -⟩; rcases h1 with h | h
                                           · omega
                                           · linarith)
    · exact iff_of_false (by norm_num) (by rintro ⟨hr, he⟩; rcases h1 with h | h
                                           · omega
                                           · linarith)
  · push_neg at h1
    obtain ⟨hr0, he2'⟩ := h1
    have hrp : 0 < c.repetitions := Nat.pos_of_ne_zero hr0
    have hcnot : ¬(c.repetitions = 0 ∨ c.ease < 2) := by
      push_neg
      exact ⟨hr0, he2'⟩
    by_cases h2 : c.ease < 3
    · have hc : classify c = 2 := by simp [classify, hcnot, h2]
      refine ⟨?_, iff_of_true hc ⟨hrp, he2', h2⟩, ?_, ?_, ?_, h19⟩ <;> rw [hc]
      · exact iff_of_false (by norm_num) (by rintro (h | h)
                                             · omega
                                             · linarith)
      · exact iff_of_false (by norm_num) (by rintro ⟨-, he, -⟩; linarith)
      · exact iff_of_false (by norm_num) (by rintro ⟨-, he, -⟩; linarith)
      · exact iff_of_false (by norm_num) (by rintro ⟨-, he⟩; linarith)
    · have he3 : 3 ≤ c.ease := not_lt.mp h2
      by_cases h3 : c.ease < 4
      · have hc : classify c = 3 := by simp [classify, hcnot, h2, h3]
        refine ⟨?_, ?_, iff_of_true hc ⟨hrp, he3, h3⟩, ?_, ?_, h19⟩ <;> rw [hc]
        · exact iff_of_false (by norm_num) (by rintro (h | h)
                                               · omega
                                               · linarith)
        · exact iff_of_false (by norm_num) (by rintro ⟨-, -, he⟩; linarith)
        · exact iff_of_false (by norm_num) (by rintro ⟨-, he, -⟩; linarith)
        · exact iff_of_false (by norm_num) (by rintro ⟨-, he⟩; linarith)
      · have he4 : 4 ≤ c.ease := not_lt.mp h3
        by_cases h4 : c.ease < 5
        · have hc : classify c = 4 := by simp [classify, hcnot, h2, h3, h4]
          refine ⟨?_, ?_, ?_, iff_of_true hc ⟨hrp, he4, h4⟩, ?_, h19⟩ <;> rw [hc]
          · exact iff_of_false (by norm_num) (by rintro (h | h)
                                                 · omega
                                                 · linarith)
          · exact iff_of_false (by norm_num) (by rintro ⟨-, -, he⟩; linarith)
          · exact iff_of_false (by norm_num) (by rintro ⟨-, -, he⟩; linarith)
          · exact iff_of_false (by norm_num) (by rintro ⟨-, he⟩; linarith)
        · have he5 : 5 ≤ c.ease := not_lt.mp h4
          have hc : classify c = 5 := by simp [classify, hcnot, h2, h3, h4]
          refine ⟨?_, ?_, ?_, ?_, iff_of_true hc ⟨hrp, he5⟩, h19⟩ <;> rw [hc]
          · exact iff_of_false (by norm_num) (by rintro (h | h)
                                                 · omega
                                                 · linarith)
          · exact iff_of_false (by norm_num) (by rintro ⟨-, -, he⟩; linarith)
          · exact iff_of_false (by norm_num) (by rintro ⟨-, -, he⟩; linarith)
          · exact iff_of_false (by norm_num) (by rintro ⟨-, -, he⟩; linarith)

/-- Claim C7: for every MCQ card with more than one correct answer (hence a
non-empty correct set C) and any selection S, `calculate_partial_score`
returns `max 0 (|C∩S|/|C| − 0.25·|S∖C|)`, is perfect iff `C∩S = C` and
`S∖C = ∅`, depends only on the set of selected letters, and on the worked
example C = {a,c}, S = {a,b} scores 0.25 and is not perfect. -/
theorem c7_partial_score (c : Flashcard) (S : List Char)
    (h1 : c.card_type = CardType.mcq) (h2 : 1 < c.correct_answers.length) :
    ((calculate_partial_score c S).1 =
        max 0 (((get_correct_answers_set c ∩ S.toFinset).card : ℚ) /
                 ((get_correct_answers_set c).card : ℚ) -
               1/4 * ((S.toFinset \ get_correct_answers_set c).card : ℚ))) ∧
    ((calculate_partial_score c S).2.1 = true ↔
        (get_correct_answers_set c ∩ S.toFinset = get_correct_answers_set c ∧
         S.toFinset \ get_correct_answers_set c = ∅)) ∧
    (∀ S2 : List Char, S2.toFinset = S.toFinset →
        calculate_partial_score c S2 = calculate_partial_score c S) ∧
    (calculate_partial_score cardAC ['a', 'b']).1 = 1/4 ∧
    (calculate_partial_score cardAC ['a', 'b']).2.1 = false := by
  have main : ∀ d : Flashcard, d.card_type = CardType.mcq →
      (get_correct_answers_set d).card ≠ 0 → ∀ T : List Char,
      (calculate_partial_score d T).1 =
        max 0 (((get_correct_answers_set d ∩ T.toFinset).card : ℚ) /
                 ((get_correct_answers_set d).card : ℚ) -
               1/4 * ((T.toFinset \ get_correct_answers_set d).card : ℚ)) ∧
      ((calculate_partial_score d T).2.1 = true ↔
        ((get_correct_answers_set d ∩ T.toFinset).card = (get_correct_answers_set d).card ∧
         (T.toFinset \ get_correct_answers_set d).card = 0)) := by
    intro d hd htc T
    simp only [calculate_partial_score]
    rw [if_neg (by simp [hd]), if_neg htc]
    constructor
    · show max 0 (_ - _ * (1/4)) = max 0 (_ - 1/4 * _)
      rw [mul_comm]
    · simp only [decide_eq_true_eq]
  have htc : (get_correct_answers_set c).card ≠ 0 := by
    have hne : c.correct_answers ≠ [] := by
      intro h
      rw [h] at h2
      simp at h2
    obtain ⟨a, ha⟩ := List.exists_mem_of_ne_nil _ hne
    have hmem : a ∈ get_correct_answers_set c := by
      simp [get_correct_answers_set, h1, List.mem_toFinset, ha]
    have := Finset.card_pos.mpr ⟨a, hmem⟩
    omega
  have e1 : get_correct_answers_set cardAC = {'a', 'c'} := by decide
  have e2 : (({'a', 'c'} : Finset Char) ∩ (['a', 'b'] : List Char).toFinset).card = 1 := by
    decide
  have e3 : ((['a', 'b'] : List Char).toFinset \ ({'a', 'c'} : Finset Char)).card = 1 := by
    decide
  have e4 : ({'a', 'c'} : Finset Char).card = 2 := by decide
  have hACtc : (get_correct_answers_set cardAC).card ≠ 0 := by rw [e1, e4]; omega
  refine ⟨(main c h1 htc S).1, ?_, ?_, ?_, ?_⟩
  · refine ((main c h1 htc S).2).trans (and_congr ?_ Finset.card_eq_zero)
    constructor
    · intro h
      exact Finset.eq_of_subset_of_card_le Finset.inter_subset_left (le_of_eq h.symm)
    · intro h
      rw [h]
  · intro S2 hS2
    simp only [calculate_partial_score, hS2]
  · rw [(main cardAC rfl hACtc ['a', 'b']).1, e1, e2, e3, e4]
    norm_num
  · have h5 := (main cardAC rfl hACtc ['a', 'b']).2
    have hfalse : ¬(((get_correct_answers_set cardAC ∩ (['a', 'b'] : List Char).toFinset).card =
          (get_correct_answers_set cardAC).card) ∧
        (((['a', 'b'] : List Char).toFinset \ get_correct_answers_set cardAC).card = 0)) := by
      rw [e1, e2, e3, e4]
      omega
    cases hb : (calculate_partial_score cardAC ['a', 'b']).2.1
    · rfl
    · exact absurd (h5.mp hb) hfalse

/-- Witness for C7 at the worked example card (correct answers {a, c}) and
selection [a, b]. -/
theorem c7_witness :
    cardAC.card_type = CardType.mcq ∧ 1 < cardAC.correct_answers.length ∧
    ((calculate_partial_score cardAC ['a', 'b']).1 = 1/4 ∧
     (calculate_partial_score cardAC ['a', 'b']).2.1 = false) :=
  ⟨rfl, by decide,
   (c7_partial_score cardAC ['a', 'b'] rfl (by decide)).2.2.2.1,
   (c7_partial_score cardAC ['a', 'b'] rfl (by decide)).2.2.2.2⟩

/-- Claim C10: `calculate_partial_score` is total beyond its documented
domain: a non-MCQ (vocabulary) card yields (1.0, true, {}) for any selection,
and an MCQ card with an empty correct-answer set yields (0.0, false, {}),
with no error path. -/
theorem c10_total_score (c : Flashcard) (S : List Char) :
    (c.card_type = CardType.vocabulary → calculate_partial_score c S = (1, true, none)) ∧
    (c.card_type = CardType.mcq → get_correct_answers_set c = ∅ →
      calculate_partial_score c S = (0, false, none)) := by
  constructor
  · intro h
    have hne : c.card_type ≠ CardType.mcq := by rw [h]; simp
    simp [calculate_partial_score, hne]
  · intro h he
    simp [calculate_partial_score, h, he]

/-- Witness for C10 at a vocabulary card and at an MCQ card with no correct
answers. -/
theorem c10_witness :
    (card0.card_type = CardType.vocabulary ∧
     calculate_partial_score card0 ['a'] = (1, true, none)) ∧
    ((⟨5/2, 1, 0, CardType.mcq, []⟩ : Flashcard).card_type = CardType.mcq ∧
     get_correct_answers_set ⟨5/2, 1, 0, CardType.mcq, []⟩ = ∅ ∧
     calculate_partial_score ⟨5/2, 1, 0, CardType.mcq, []⟩ ['a'] = (0, false, none)) :=
  ⟨⟨rfl, (c10_total_score card0 ['a']).1 rfl⟩,
   ⟨rfl, by decide, (c10_total_score ⟨5/2, 1, 0, CardType.mcq, []⟩ ['a']).2 rfl (by decide)⟩⟩

/-- Setting one deck slot leaves every other slot unchanged. -/
theorem getD_set_ne (l : List Flashcard) (i j : ℕ) (a : Flashcard) (h : i ≠ j) :
    (l.set i a).getD j default = l.getD j default := by
  rw [List.getD_eq_getElem?_getD, List.getD_eq_getElem?_getD, List.getElem?_set_ne h]

/-- `applyReviews` touches only the listed deck slots. -/
theorem applyReviews_getD_of_not_mem (idxs : List ℕ) :
    ∀ (deck : List Flashcard) (rs : List (Outcome × Option ℚ)) (j : ℕ), j ∉ idxs →
      (applyReviews deck idxs rs).getD j default = deck.getD j default := by
  induction idxs with
  | nil => intro deck rs j _; rfl
  | cons i is ih =>
    intro deck rs j hj
    cases rs with
    | nil => rfl
    | cons r rs' =>
      obtain ⟨o, rt⟩ := r
      have hji : i ≠ j := fun h => hj (h ▸ List.mem_cons_self i is)
      have hj' : j ∉ is := fun h => hj (List.mem_cons_of_mem _ h)
      simp only [applyReviews]
      rw [ih _ rs' j hj', getD_set_ne _ _ _ _ hji]

/-- Claim C9: when the learner cancels at an answer prompt mid-batch, the
batch loop of `_study_card_set_with_tracking` terminates with the in-flight
card (and every unprocessed one) unmodified, every card answered before the
interrupt carrying exactly its reviewed state, and the deck saved exactly
once (by the prompt handler). -/
theorem c9_cancellation (deck : List Flashcard) (idxs : List ℕ)
    (pre : List (Outcome × Option ℚ)) (post : List (Option (Outcome × Option ℚ)))
    (h : pre.length < idxs.length) :
    (study_card_set deck idxs (pre.map some ++ none :: post)).cancelled = true ∧
    (study_card_set deck idxs (pre.map some ++ none :: post)).saves = 1 ∧
    (study_card_set deck idxs (pre.map some ++ none :: post)).deck =
      applyReviews deck (idxs.take pre.length) pre ∧
    ∀ j, j ∉ idxs.take pre.length →
      (study_card_set deck idxs (pre.map some ++ none :: post)).deck.getD j default =
        deck.getD j default := by
  induction pre generalizing deck idxs with
  | nil =>
    cases idxs with
    | nil => simp at h
    | cons i is =>
      exact ⟨rfl, rfl, rfl, fun j _ => rfl⟩
  | cons p ps ih =>
    obtain ⟨o, rt⟩ := p
    cases idxs with
    | nil => simp at h
    | cons i is =>
      have h' : ps.length < is.length := by
        simp only [List.length_cons] at h
        omega
      have step := ih (deck.set i (review (deck.getD i default) (qualityOf o) rt)) is h'
      simp only [List.map_cons, List.cons_append, List.length_cons, List.take_succ_cons,
        study_card_set, applyReviews, List.append_eq]
      refine ⟨step.1, step.2.1, step.2.2.1, ?_⟩
      intro j hj
      have hji : i ≠ j := fun hh => hj (hh ▸ List.mem_cons_self i _)
      have hj' : j ∉ is.take ps.length := fun hh => hj (List.mem_cons_of_mem _ hh)
      rw [step.2.2.2 j hj', getD_set_ne _ _ _ _ hji]

/-- Witness for C9: a two-card batch where the second prompt is cancelled. -/
theorem c9_witness :
    [(Outcome.correct, (none : Option ℚ))].length < [0, 1].length ∧
    ((study_card_set [card0, card0] [0, 1]
        ([(Outcome.correct, (none : Option ℚ))].map some ++ none :: [])).cancelled = true ∧
     (study_card_set [card0, card0] [0, 1]
        ([(Outcome.correct, (none : Option ℚ))].map some ++ none :: [])).saves = 1) :=
  ⟨by decide,
   (c9_cancellation [card0, card0] [0, 1] [(Outcome.correct, none)] [] (by decide)).1,
   (c9_cancellation [card0, card0] [0, 1] [(Outcome.correct, none)] [] (by decide)).2.1⟩

/-- The wrong-option display numbers are pairwise distinct. -/
theorem wrongNumbers_nodup (s : List Char) (cset : Finset Char) (avail : List ℕ) :
    (wrongNumbers s cset avail).Nodup := by
  unfold wrongNumbers
  exact ((List.nodup_range _).filter _).map (fun a b hab => by omega)

/-- Every wrong-option display number is still an available option. -/
theorem wrongNumbers_subset (s : List Char) (cset : Finset Char) (avail : List ℕ) :
    ∀ x ∈ wrongNumbers s cset avail, x ∈ avail := by
  intro x hx
  unfold wrongNumbers at hx
  simp only [List.mem_map, List.mem_filter, List.mem_range, Bool.and_eq_true,
    decide_eq_true_eq] at hx
  obtain ⟨i, ⟨-, -, hmem⟩, rfl⟩ := hx
  exact hmem

/-- Removing a duplicate-free sublist of a duplicate-free list by filtering
drops exactly its length. -/
theorem filter_not_mem_length (avail rem : List ℕ) (ha : avail.Nodup) (hr : rem.Nodup)
    (hsub : ∀ x ∈ rem, x ∈ avail) :
    (avail.filter (fun num => decide (num ∉ rem))).length = avail.length - rem.length := by
  have hnd : (avail.filter (fun num => decide (num ∉ rem))).Nodup := ha.filter _
  have hset : (avail.filter (fun num => decide (num ∉ rem))).toFinset =
      avail.toFinset \ rem.toFinset := by
    ext x
    simp [List.mem_filter]
  have hsubF : rem.toFinset ⊆ avail.toFinset := by
    intro x hx
    rw [List.mem_toFinset] at hx ⊢
    exact hsub x hx
  rw [← List.toFinset_card_of_nodup hnd, ← List.toFinset_card_of_nodup ha,
    ← List.toFinset_card_of_nodup hr, hset, Finset.card_sdiff hsubF]

/-- A duplicate-free list is no longer than a duplicate-free list containing
it. -/
theorem nodup_subset_length_le (l1 l2 : List ℕ) (h1 : l1.Nodup) (h2 : l2.Nodup)
    (hsub : ∀ x ∈ l1, x ∈ l2) : l1.length ≤ l2.length := by
  rw [← List.toFinset_card_of_nodup h1, ← List.toFinset_card_of_nodup h2]
  refine Finset.card_le_card ?_
  intro x hx
  rw [List.mem_toFinset] at hx ⊢
  exact hsub x hx

/-- Taking a prefix is one legitimate behaviour of `random.sample`. -/
theorem sampleTake_valid : ValidSample sampleTake := by
  intro xs n hnd hle
  refine ⟨?_, ?_, ?_⟩
  · simp only [sampleTake, List.length_take]
    omega
  · exact hnd.sublist (List.take_sublist n xs)
  · intro x hx
    exact (List.take_sublist n xs).subset hx

/-- With the hint already used, the single-answer input loop never applies
another elimination: the count is returned unchanged. -/
theorem single_answer_loop_used (sample : List ℕ → ℕ → List ℕ) (s : List Char)
    (cset : Finset Char) (allow : Bool) (maxOpt : ℕ) :
    ∀ (keys : List Key) (avail : List ℕ) (hc : ℕ),
      single_answer_loop sample s cset allow maxOpt keys true avail hc = hc := by
  intro keys
  induction keys with
  | nil =>
    intro avail hc
    rfl
  | cons k ks ih =>
    intro avail hc
    cases k with
    | escKey => rfl
    | digitKey n =>
      simp only [single_answer_loop]
      split_ifs <;> first | rfl | exact ih avail hc
    | hintKey =>
      simp only [single_answer_loop]
      rw [if_neg (by simp)]
      exact ih avail hc
    | otherKey => exact ih avail hc

/-- Starting with the hint unused, the single-answer input loop applies the
elimination at most once. -/
theorem single_answer_loop_once (sample : List ℕ → ℕ → List ℕ) (s : List Char)
    (cset : Finset Char) (allow : Bool) (maxOpt : ℕ) :
    ∀ (keys : List Key) (avail : List ℕ) (hc : ℕ),
      single_answer_loop sample s cset allow maxOpt keys false avail hc ≤ hc + 1 := by
  intro keys
  induction keys with
  | nil =>
    intro avail hc
    simp [single_answer_loop]
  | cons k ks ih =>
    intro avail hc
    cases k with
    | escKey => simp [single_answer_loop]
    | digitKey n =>
      simp only [single_answer_loop]
      split_ifs <;> first | omega | exact ih avail hc
    | hintKey =>
      simp only [single_answer_loop]
      split_ifs with h1
      · rw [single_answer_loop_used]
      · exact ih avail hc
    | otherKey => exact ih avail hc

/-- Counterexample to claim C3: a single-answer MCQ with 4 options and 1
correct answer has w = 3 wrong options, and the first hint removes exactly
1 of them — not ⌈3/2⌉ = 2 as claimed. -/
theorem c3_counterexample :
    (wrongNumbers ['a', 'b', 'c', 'd'] {'a'} [1, 2, 3, 4]).length = 3 ∧
    [1, 2, 3, 4].length -
      (eliminate_wrong_options sampleTake ['a', 'b', 'c', 'd'] {'a'} [1, 2, 3, 4]).length = 1 ∧
    (3 + 1) / 2 = 2 ∧ (1 : ℕ) ≠ 2 := by
  refine ⟨by decide, by decide, by decide, by decide⟩

/-- Claim C3 as amended: the first hint request removes exactly
`min (max 1 ⌊w/2⌋) w = max 1 ⌊w/2⌋` (floor, not ceiling) randomly chosen
wrong options from the remaining choice set, and the hint is usable at most
once per question. -/
theorem c3_amended (sample : List ℕ → ℕ → List ℕ) (hs : ValidSample sample)
    (shuffled : List Char) (cset : Finset Char) (avail : List ℕ)
    (ha : avail.Nodup) (hw : 1 ≤ (wrongNumbers shuffled cset avail).length) :
    (avail.length - (eliminate_wrong_options sample shuffled cset avail).length =
      max 1 ((wrongNumbers shuffled cset avail).length / 2)) ∧
    (∀ x ∈ avail, x ∉ eliminate_wrong_options sample shuffled cset avail →
      x ∈ wrongNumbers shuffled cset avail) ∧
    (∀ (keys : List Key) (allow : Bool) (maxOpt : ℕ) (opts : List ℕ),
      single_answer_loop sample shuffled cset allow maxOpt keys false opts 0 ≤ 1) := by
  have hwn := wrongNumbers_nodup shuffled cset avail
  have hws := wrongNumbers_subset shuffled cset avail
  set w := wrongNumbers shuffled cset avail with hwdef
  set count := min (max 1 (w.length / 2)) w.length with hcdef
  have hcle : count ≤ w.length := min_le_right _ _
  obtain ⟨hslen, hsnd, hssub⟩ := hs w count hwn hcle
  have hrsub : ∀ x ∈ sample w count, x ∈ avail := fun x hx => hws x (hssub x hx)
  have hflen : (avail.filter (fun num => decide (num ∉ sample w count))).length =
      avail.length - count := by
    rw [filter_not_mem_length avail (sample w count) ha hsnd hrsub, hslen]
  have hwle : w.length ≤ avail.length := nodup_subset_length_le w avail hwn ha hws
  refine ⟨?_, ?_, ?_⟩
  · show avail.length - (avail.filter (fun num => decide (num ∉ sample w count))).length = _
    rw [hflen]
    omega
  · intro x hxa hxf
    simp only [eliminate_wrong_options, List.mem_filter, decide_eq_true_eq, not_and,
      not_not] at hxf
    exact hssub x (hxf hxa)
  · intro keys allow maxOpt opts
    simpa using single_answer_loop_once sample shuffled cset allow maxOpt keys opts 0

/-- Witness for the amended C3 at the concrete 4-option, 1-correct
instance with the prefix-taking sample. -/
theorem c3_amended_witness :
    ([1, 2, 3, 4] : List ℕ).Nodup ∧
    1 ≤ (wrongNumbers ['a', 'b', 'c', 'd'] {'a'} [1, 2, 3, 4]).length ∧
    [1, 2, 3, 4].length -
        (eliminate_wrong_options sampleTake ['a', 'b', 'c', 'd'] {'a'} [1, 2, 3, 4]).length =
      max 1 ((wrongNumbers ['a', 'b', 'c', 'd'] {'a'} [1, 2, 3, 4]).length / 2) :=
  ⟨by decide, by decide,
   (c3_amended sampleTake sampleTake_valid ['a', 'b', 'c', 'd'] {'a'} [1, 2, 3, 4]
     (by decide) (by decide)).1⟩

/-- Save accounting for one card set: the prompt handlers save exactly once
on ESC and never otherwise. -/
theorem study_card_set_saves (idxs : List ℕ) :
    ∀ (deck : List Flashcard) (rs : List (Option (Outcome × Option ℚ))),
      ((study_card_set deck idxs rs).cancelled = true →
        (study_card_set deck idxs rs).saves = 1) ∧
      ((study_card_set deck idxs rs).cancelled = false →
        (study_card_set deck idxs rs).saves = 0) := by
  induction idxs with
  | nil =>
    intro deck rs
    exact ⟨fun h => by simp [study_card_set] at h, fun _ => rfl⟩
  | cons i is ih =>
    intro deck rs
    cases rs with
    | nil => exact ⟨fun h => by simp [study_card_set] at h, fun _ => rfl⟩
    | cons r rs' =>
      cases r with
      | none => exact ⟨fun _ => rfl, fun h => by simp [study_card_set] at h⟩
      | some prt =>
        obtain ⟨o, rt⟩ := prt
        simp only [study_card_set]
        exact ih _ rs'

/-- Save accounting for the Phase 1 loop: exactly one save on cancellation,
none otherwise (the save at learn_simulator.py line 430 is not in this
branch). -/
theorem phase1Loop_saves (sorted : List ℕ) :
    ∀ (script : List (List (Option (Outcome × Option ℚ)))) (deck : List Flashcard)
      (start : ℕ) (carry : List ℕ),
      ((phase1Loop sorted script deck start carry).ending = LoopEnd.cancelled →
        (phase1Loop sorted script deck start carry).saves = 1) ∧
      ((phase1Loop sorted script deck start carry).ending ≠ LoopEnd.cancelled →
        (phase1Loop sorted script deck start carry).saves = 0) := by
  intro script
  induction script with
  | nil =>
    intro deck start carry
    simp only [phase1Loop]
    split_ifs <;> exact ⟨fun h => by simp at h, fun _ => rfl⟩
  | cons responses rest ih =>
    intro deck start carry
    simp only [phase1Loop]
    split_ifs with hcond hempty hcanc hdone
    · exact ⟨fun h => by simp at h, fun _ => rfl⟩
    · exact ⟨fun _ => (study_card_set_saves _ _ _).1 hcanc, fun h => by simp at h⟩
    · exact ⟨fun h => by simp at h,
        fun _ => (study_card_set_saves _ _ _).2 (by simpa using hcanc)⟩
    · refine ⟨fun h => ?_, fun h => ?_⟩
      · have h0 := (study_card_set_saves _ _ _).2 (by simpa using hcanc)
        have h1 := (ih _ _ _).1 h
        simp only [h0, h1]
      · have h0 := (study_card_set_saves _ _ _).2 (by simpa using hcanc)
        have h1 := (ih _ _ _).2 h
        simp only [h0, h1]
    · exact ⟨fun h => by simp at h, fun _ => rfl⟩

/-- Save accounting for the Phase 2 loop: exactly one save on cancellation,
none from the loop itself otherwise. -/
theorem phase2Loop_saves :
    ∀ (script : List P2Iter) (deck : List Flashcard),
      ((phase2Loop script deck).ending = LoopEnd.cancelled →
        (phase2Loop script deck).saves = 1) ∧
      ((phase2Loop script deck).ending ≠ LoopEnd.cancelled →
        (phase2Loop script deck).saves = 0) := by
  intro script
  induction script with
  | nil =>
    intro deck
    exact ⟨fun h => by simp [phase2Loop] at h, fun _ => rfl⟩
  | cons it rest ih =>
    intro deck
    simp only [phase2Loop]
    split_ifs with hbatch hcanc hcont
    · exact ⟨fun h => by simp at h, fun _ => rfl⟩
    · exact ⟨fun _ => (study_card_set_saves _ _ _).1 hcanc, fun h => by simp at h⟩
    · exact ⟨fun h => by simp at h,
        fun _ => (study_card_set_saves _ _ _).2 (by simpa using hcanc)⟩
    · refine ⟨fun h => ?_, fun h => ?_⟩
      · have h0 := (study_card_set_saves _ _ _).2 (by simpa using hcanc)
        have h1 := (ih _).1 h
        simp only [h0, h1]
      · have h0 := (study_card_set_saves _ _ _).2 (by simpa using hcanc)
        have h1 := (ih _).2 h
        simp only [h0, h1]

/-- Counterexample to claim C1: a one-card deck whose card starts in stage 1
(repetitions 0).  Phase 1 runs and terminates normally (cursor exhausted,
carry-forward empty, both answers correct), yet Phase 2 is never entered:
the Phase 2 loop lives in the `else` branch of `study_session`. -/
theorem c1_counterexample :
    (study_session [card0] [[some (Outcome.correct, none), some (Outcome.correct, none)]]
      []).ending = LoopEnd.completed ∧
    (study_session [card0] [[some (Outcome.correct, none), some (Outcome.correct, none)]]
      []).phases = [Phase.phase1] ∧
    Phase.phase2 ∉
      (study_session [card0] [[some (Outcome.correct, none), some (Outcome.correct, none)]]
        []).phases := by
  refine ⟨by decide, by decide, by decide⟩

/-- Claim C1 as amended: Phase 1 and Phase 2 are mutually exclusive
alternatives.  A non-empty deck with a stage-1 card runs only Phase 1 and
the session ends with it; Phase 2 is entered (directly) exactly when the
deck is non-empty and no card starts in stage 1; an empty deck enters
neither phase. -/
theorem c1_amended (deck : List Flashcard)
    (p1script : List (List (Option (Outcome × Option ℚ)))) (p2script : List P2Iter) :
    (study_session deck p1script p2script).phases =
      if deck.isEmpty then [] else if deck.any isStage1 then [Phase.phase1]
      else [Phase.phase2] := by
  by_cases hempty : deck.isEmpty
  · simp [study_session, hempty]
  · by_cases hstage : deck.any isStage1
    · simp [study_session, hempty, hstage]
    · by_cases hend : (phase2Loop p2script deck).ending = LoopEnd.completed
      · simp [study_session, hempty, hstage, hend]
      · simp [study_session, hempty, hstage, hend]

/-- Counterexample to claim C2: the same Phase 1 run that completes normally
performs no deck save and emits no statistics summary — the save and
summary calls at learn_simulator.py lines 430-431 sit in the Phase 2
branch only. -/
theorem c2_counterexample :
    (study_session [card0] [[some (Outcome.correct, none), some (Outcome.correct, none)]]
      []).ending = LoopEnd.completed ∧
    (study_session [card0] [[some (Outcome.correct, none), some (Outcome.correct, none)]]
      []).saves = 0 ∧
    (study_session [card0] [[some (Outcome.correct, none), some (Outcome.correct, none)]]
      []).summaryEmitted = false := by
  refine ⟨by decide, by decide, by decide⟩

/-- Claim C2 as amended: only a Phase 2 session that ends normally both
saves the deck and emits the session summary; a cancelled session (either
phase) saves exactly once — from the prompt handler — and emits no summary;
a Phase 1 session that completes normally neither saves nor emits a
summary. -/
theorem c2_amended (deck : List Flashcard)
    (p1script : List (List (Option (Outcome × Option ℚ)))) (p2script : List P2Iter) :
    ((study_session deck p1script p2script).summaryEmitted = true ↔
      ((study_session deck p1script p2script).phases = [Phase.phase2] ∧
       (study_session deck p1script p2script).ending = LoopEnd.completed)) ∧
    ((study_session deck p1script p2script).ending = LoopEnd.cancelled →
      (study_session deck p1script p2script).saves = 1 ∧
      (study_session deck p1script p2script).summaryEmitted = false) ∧
    ((study_session deck p1script p2script).phases = [Phase.phase1] →
      (study_session deck p1script p2script).ending = LoopEnd.completed →
      (study_session deck p1script p2script).saves = 0 ∧
      (study_session deck p1script p2script).summaryEmitted = false) ∧
    ((study_session deck p1script p2script).phases = [Phase.phase2] →
      (study_session deck p1script p2script).ending = LoopEnd.completed →
      (study_session deck p1script p2script).saves = 1 ∧
      (study_session deck p1script p2script).summaryEmitted = true) := by
  by_cases hempty : deck.isEmpty
  · have hout : study_session deck p1script p2script =
        ⟨deck, 0, false, [], LoopEnd.completed⟩ := by
      simp [study_session, hempty]
    rw [hout]
    refine ⟨by simp, by simp, by simp, by simp⟩
  · by_cases hstage : deck.any isStage1
    · have hout : study_session deck p1script p2script =
          ⟨(phase1Loop (sortedIdxs deck) p1script deck 0 []).deck,
           (phase1Loop (sortedIdxs deck) p1script deck 0 []).saves, false, [Phase.phase1],
           (phase1Loop (sortedIdxs deck) p1script deck 0 []).ending⟩ := by
        simp [study_session, hempty, hstage]
      rw [hout]
      refine ⟨by simp, ?_, ?_, by simp⟩
      · intro h
        exact ⟨(phase1Loop_saves (sortedIdxs deck) p1script deck 0 []).1 h, rfl⟩
      · intro _ h
        refine ⟨(phase1Loop_saves (sortedIdxs deck) p1script deck 0 []).2 ?_, rfl⟩
        have h' : (phase1Loop (sortedIdxs deck) p1script deck 0 []).ending =
            LoopEnd.completed := h
        rw [h']
        simp
    · by_cases hend : (phase2Loop p2script deck).ending = LoopEnd.completed
      · have hout : study_session deck p1script p2script =
            ⟨(phase2Loop p2script deck).deck, (phase2Loop p2script deck).saves + 1, true,
             [Phase.phase2], (phase2Loop p2script deck).ending⟩ := by
          simp [study_session, hempty, hstage, hend]
        rw [hout]
        refine ⟨by simp [hend], ?_, by simp, ?_⟩
        · intro h
          have h' : (phase2Loop p2script deck).ending = LoopEnd.cancelled := h
          rw [hend] at h'
          exact absurd h' (by simp)
        · intro _ _
          refine ⟨?_, rfl⟩
          have h0 := (phase2Loop_saves p2script deck).2 (by rw [hend]; simp)
          show (phase2Loop p2script deck).saves + 1 = 1
          omega
      · have hout : study_session deck p1script p2script =
            ⟨(phase2Loop p2script deck).deck, (phase2Loop p2script deck).saves, false,
             [Phase.phase2], (phase2Loop p2script deck).ending⟩ := by
          simp [study_session, hempty, hstage, hend]
        rw [hout]
        refine ⟨by simp [hend], ?_, by simp, ?_⟩
        · intro h
          exact ⟨(phase2Loop_saves p2script deck).1 h, rfl⟩
        · intro _ h
          exact absurd h hend

/-- Witness for the amended C2: a cancelled one-card session saves exactly
once and emits no summary. -/
theorem c2_amended_witness :
    (study_session [card0] [[none]] []).ending = LoopEnd.cancelled ∧
    ((study_session [card0] [[none]] []).saves = 1 ∧
     (study_session [card0] [[none]] []).summaryEmitted = false) :=
  ⟨by decide, (c2_amended [card0] [[none]] []).2.1 (by decide)⟩
